import Mathlib

/-!
Verification of the `neurods` repository (src/neurods/io.py, src/neurods/utils.py).

Python strings are modelled as `List Char`; the string operations the code uses
(`find`, `replace`, `split`, `in`, list `index`, `os.path` helpers) are embedded
below with CPython semantics.  Filesystem-touching code (`download_file`) is
modelled by explicit state passing over an `FS` record plus a trace of effects.
External collaborators (nibabel, scipy.stats.zscore, the network fetcher, the
zip extractor) are parameters of the functions that delegate to them.
-/

namespace Neurods

/-- Python `sub == s[:len(sub)]`: `sub` is a leading piece of `s`. -/
def isPrefixList : List Char → List Char → Bool
  | [], _ => true
  | _ :: _, [] => false
  | a :: as, b :: bs => if a = b then isPrefixList as bs else false

/-- Python `s.find(sub)`: index of the first occurrence of `sub` in `s`
(`none` models the return value `-1`). -/
def strFind (sub : List Char) : List Char → Option Nat
  | [] => if isPrefixList sub [] then some 0 else none
  | c :: rest =>
    if isPrefixList sub (c :: rest) then some 0
    else (strFind sub rest).map (fun n => n + 1)

/-- Python `sub in s` (substring containment). -/
def containsSub (s sub : List Char) : Bool :=
  (strFind sub s).isSome

/-- Python `lst.index(x)`: first index holding `x`; `none` models the
`ValueError` raised when `x` is absent. -/
def listIndex {α : Type} [DecidableEq α] (x : α) : List α → Option Nat
  | [] => none
  | y :: rest => if y = x then some 0 else (listIndex x rest).map (fun n => n + 1)

/-- Python `s.split(sep)` for a one-character separator: split on every
occurrence, keeping empty pieces.  The result is always nonempty. -/
def splitChar (sep : Char) : List Char → List (List Char)
  | [] => [[]]
  | c :: rest =>
    if c = sep then [] :: splitChar sep rest
    else (c :: (splitChar sep rest).headD []) :: (splitChar sep rest).tail

/-- Python `s.split(sep)` for a nonempty multi-character separator. -/
def pySplit (sep : List Char) (s : List Char) : List (List Char) :=
  match s with
  | [] => [[]]
  | c :: rest =>
    if h : sep ≠ [] ∧ isPrefixList sep (c :: rest) = true then
      [] :: pySplit sep ((c :: rest).drop sep.length)
    else
      (c :: (pySplit sep rest).headD []) :: (pySplit sep rest).tail
termination_by s.length
decreasing_by
  · have hpos : 0 < sep.length := List.length_pos.mpr h.1
    simp [List.length_drop]
    omega
  · simp

/-- Python `s.replace(old, new)`: replace every occurrence of `old`,
left to right, non-overlapping (`old` nonempty in all uses here). -/
def pyReplace (old new : List Char) (s : List Char) : List Char :=
  match s with
  | [] => []
  | c :: rest =>
    if h : old ≠ [] ∧ isPrefixList old (c :: rest) = true then
      new ++ pyReplace old new ((c :: rest).drop old.length)
    else
      c :: pyReplace old new rest
termination_by s.length
decreasing_by
  · have hpos : 0 < old.length := List.length_pos.mpr h.1
    simp [List.length_drop]
    omega
  · simp

/-- Python `s.rstrip(sep)` for the slash character: drop trailing slashes. -/
def dropTrail (s : List Char) : List Char :=
  (s.reverse.dropWhile (fun c => c = '/')).reverse

/-- Python `s.rfind(c)`: index of the last occurrence of character `c`. -/
def rfindChar (c : Char) : List Char → Option Nat
  | [] => none
  | x :: rest =>
    match rfindChar c rest with
    | some i => some (i + 1)
    | none => if x = c then some 0 else none

/-- CPython `posixpath.dirname`: everything up to the last slash, with
trailing slashes stripped unless the head is all slashes. -/
def pyDirname (p : List Char) : List Char :=
  match rfindChar '/' p with
  | none => []
  | some i =>
    let head := p.take (i + 1)
    if head.all (fun c => c = '/') then head else dropTrail head

/-- CPython `posixpath.join` for two components. -/
def pyJoin (a b : List Char) : List Char :=
  if b.head? = some '/' then b
  else if a = [] ∨ a.getLast? = some '/' then a ++ b
  else a ++ '/' :: b

/-- CPython `posixpath.expanduser` with `home` the value of `$HOME`:
a leading bare `~` component is replaced by `home.rstrip(sep)`. -/
def pyExpanduser (home p : List Char) : List Char :=
  match p with
  | '~' :: rest =>
    if rest = [] ∨ rest.head? = some '/' then dropTrail home ++ rest
    else p
  | _ => p

instance {ε α : Type} [DecidableEq ε] [DecidableEq α] : DecidableEq (Except ε α) :=
  fun a b =>
    match a, b with
    | .ok x, .ok y =>
      if h : x = y then .isTrue (by rw [h]) else .isFalse (by simp [h])
    | .error x, .error y =>
      if h : x = y then .isTrue (by rw [h]) else .isFalse (by simp [h])
    | .ok _, .error _ => .isFalse (by simp)
    | .error _, .ok _ => .isFalse (by simp)

/-- Errors the Python URL normalizer can raise: `list.index` raises
`ValueError` when no `d` segment exists; indexing one past the end raises
`IndexError` when `d` is the final segment. -/
inductive ConvErr
  | dIndexNotFound
  | dNextMissing
deriving DecidableEq

/-- `_convert_url_to_downloadable` from src/neurods/io.py. -/
def convert_url_to_downloadable (url : List Char) : Except ConvErr (List Char) :=
  if containsSub url "drive.google.com".data then
    match listIndex "d".data (splitChar '/' url) with
    | none => .error ConvErr.dIndexNotFound
    | some i =>
      match (splitChar '/' url).get? (i + 1) with
      | none => .error ConvErr.dNextMissing
      | some file_id =>
        .ok ("https://drive.google.com/uc?export=download&id=".data ++ file_id)
  else if containsSub url "www.dropbox.com".data then
    .ok (pyReplace "www.dropbox.com".data "dl.dropboxusercontent.com".data url)
  else
    .ok url

/-- The two `ValueError`s `url_to_interact` can raise. -/
inductive UErr
  | notData8
  | badHost
deriving DecidableEq

/-- `url_to_interact` from src/neurods/utils.py. -/
def url_to_interact (url url_type : List Char) : Except UErr (List Char) :=
  if ¬ (containsSub url "data-8".data = true ∨ containsSub url "data8.org".data = true) then
    .error UErr.notData8
  else
    let body := fun (repo_split : List Char) =>
      let repo := (splitChar '/' ((pySplit repo_split url).getLastD [])).headD []
      let name_split :=
        if containsSub url "github.com".data then "gh-pages/".data else repo ++ ['/']
      let name := (pySplit name_split url).getLastD []
      "https://".data ++ url_type ++ ".berkeley.edu/hub/interact?repo=".data ++
        repo ++ "&path=".data ++ name
    if containsSub url "github.com".data then .ok (body "data-8/".data)
    else if containsSub url "data8.org".data then .ok (body "data8.org/".data)
    else .error UErr.badHost

/-- Filesystem state: the value of `$HOME`, the set of existing directories
(stored without trailing slashes), and the regular files with their bytes. -/
structure FS where
  home : List Char
  dirs : List (List Char)
  files : List (List Char × List Char)
deriving DecidableEq

/-- Side effects `download_file` performs, in program order. -/
inductive Effect
  | mkdirs (p : List Char)
  | fetchUrl (u p : List Char)
  | extract (src dst : List Char)
  | removePath (p : List Char)
deriving DecidableEq

/-- Python's `ValueError`s raised by `download_file` itself, plus the two
errors URL normalization can propagate (`valueNoD` is the `ValueError` from
`list.index`, `indexAfterD` the `IndexError` from indexing past the end). -/
inductive PyErr
  | emptyName
  | pathExists (p : List Char)
  | valueNoD
  | indexAfterD
deriving DecidableEq

def convErrToPy : ConvErr → PyErr
  | ConvErr.dIndexNotFound => PyErr.valueNoD
  | ConvErr.dNextMissing => PyErr.indexAfterD

/-- `os.path.isdir`: the path, with trailing slashes ignored, names an
existing directory. -/
def isdir (fs : FS) (p : List Char) : Bool :=
  decide (dropTrail p ∈ fs.dirs)

/-- A regular file exists at exactly this path. -/
def isfile (fs : FS) (p : List Char) : Bool :=
  fs.files.any (fun e => decide (e.1 = p))

/-- `os.path.exists`: a path with a trailing slash only exists as a
directory; otherwise either kind of entry counts. -/
def pexists (fs : FS) (p : List Char) : Bool :=
  if p.getLast? = some '/' then isdir fs p else isdir fs p || isfile fs p

/-- `os.makedirs` on the state: record the new directory. -/
def addDir (fs : FS) (p : List Char) : FS :=
  { fs with dirs := dropTrail p :: fs.dirs }

/-- Write (or overwrite) the file at `p` with content `c`. -/
def setFile (fs : FS) (p c : List Char) : FS :=
  { fs with files := (p, c) :: fs.files.filter (fun e => !(decide (e.1 = p))) }

/-- `os.remove` on the state. -/
def delFile (fs : FS) (p : List Char) : FS :=
  { fs with files := fs.files.filter (fun e => !(decide (e.1 = p))) }

/-- The `if not op.isdir(p): os.makedirs(p)` pattern, returning the effects
performed and the new state. -/
def ensureDir (fs : FS) (p : List Char) : List Effect × FS :=
  if isdir fs p then ([], fs) else ([Effect.mkdirs p], addDir fs p)

/-- Lines 166-174 of io.py: make sure `~/data/` and `~/tmp/` exist. -/
def ensureBase (fs : FS) : List Effect × FS :=
  let home := dropTrail fs.home
  let d := ensureDir fs (home ++ "/data/".data)
  let t := ensureDir d.2 (home ++ "/tmp/".data)
  (d.1 ++ t.1, t.2)

/-- `download_file` from src/neurods/io.py.  `net` maps a URL to the bytes
the network returns (`_fetch_file`), and `extractTo fs src dst` is the
filesystem result of `ZipFile(src).extractall(dst)`; both are external
collaborators.  Returns the effect trace, the final filesystem state, and
the outcome. -/
def download_file (net : List Char → List Char)
    (extractTo : FS → List Char → List Char → FS)
    (url name root_destination : List Char) (zipfile replace : Bool)
    (fs : FS) : List Effect × FS × Except PyErr Unit :=
  let home := dropTrail fs.home
  let tmpfile := home ++ "/tmp/tmp".data
  let base := ensureBase fs
  match convert_url_to_downloadable url with
  | .error e => (base.1, base.2, .error (convErrToPy e))
  | .ok download_path =>
    let out_path := pyExpanduser fs.home (pyJoin root_destination name)
    let par := ensureDir base.2 (pyDirname out_path)
    if zipfile then
      let fs4 := setFile par.2 tmpfile (net download_path)
      let fs5 := extractTo fs4 tmpfile out_path
      let fs6 := delFile fs5 tmpfile
      (base.1 ++ par.1 ++
        [Effect.fetchUrl download_path tmpfile, Effect.extract tmpfile out_path,
          Effect.removePath tmpfile],
        fs6, .ok ())
    else
      if name.length = 0 then
        (base.1 ++ par.1, par.2, .error PyErr.emptyName)
      else if replace = false ∧ pexists par.2 out_path = true then
        (base.1 ++ par.1, par.2, .error (PyErr.pathExists out_path))
      else
        (base.1 ++ par.1 ++ [Effect.fetchUrl download_path out_path],
          setFile par.2 out_path (net download_path), .ok ())

/-- A notebook cell (nbformat v4): its type tag, source text, outputs
(payloads abstracted to `Nat`), execution count, and the legacy
`prompt_number` key. -/
structure Cell where
  cell_type : List Char
  source : List Char
  outputs : List Nat
  execution_count : Option Int
  prompt_number : Option Int
deriving DecidableEq

/-- Lines 244-249 of io.py: clear outputs when requested, always clear the
execution count and drop the legacy prompt number. -/
def cleanCell (clean_outputs : Bool) (c : Cell) : Cell :=
  { c with outputs := if clean_outputs then [] else c.outputs,
           execution_count := none, prompt_number := none }

/-- What one iteration of the `strip_answers` loop does to the cell it
inspects when no removal happens. -/
def processCell (strip_string : List Char) (clean_outputs : Bool) (c : Cell) : Cell :=
  if c.cell_type ≠ "code".data then c
  else
    match strFind strip_string c.source with
    | some ix =>
      cleanCell clean_outputs
        { c with source := c.source.take (ix + strip_string.length) ++ ['\n'] }
    | none => cleanCell clean_outputs c

/-- The `for ii, cell in enumerate(nb['cells'])` loop of `strip_answers`,
with CPython list-iterator semantics: the iterator walks positions
`0, 1, 2, ...` of the list *as it is being mutated*, so `pop(ii)` shifts the
next cell into slot `ii` where the iterator never visits it again. -/
def stripLoop (strip_string : List Char) (remove_cell clean_outputs : Bool)
    (cells : List Cell) (ii : Nat) : List Cell :=
  if h : ii < cells.length then
    let cell := cells.get ⟨ii, h⟩
    if cell.cell_type ≠ "code".data then
      stripLoop strip_string remove_cell clean_outputs cells (ii + 1)
    else
      match strFind strip_string cell.source with
      | some ix =>
        if remove_cell then
          stripLoop strip_string remove_cell clean_outputs (cells.eraseIdx ii) (ii + 1)
        else
          stripLoop strip_string remove_cell clean_outputs
            (cells.set ii (cleanCell clean_outputs
              { cell with source := cell.source.take (ix + strip_string.length) ++ ['\n'] }))
            (ii + 1)
      | none =>
        stripLoop strip_string remove_cell clean_outputs
          (cells.set ii (cleanCell clean_outputs cell)) (ii + 1)
  else cells
termination_by cells.length - ii
decreasing_by
  · omega
  · have : (cells.eraseIdx ii).length = cells.length - 1 := by
      rw [List.length_eraseIdx]
      simp [h]
    omega
  · simp
    omega
  · simp
    omega

/-- `strip_answers` from src/neurods/io.py, restricted to the in-memory
document it returns (the save path serializes this same value under a
derived name).  `keep_strip_string` is accepted but never read by the
function body, exactly as in the source. -/
def strip_answers (cells : List Cell) (strip_string : List Char)
    ( keep_strip_string remove_cell clean_outputs : Bool) : List Cell :=
  stripLoop strip_string remove_cell clean_outputs cells 0

/-- numpy boolean-mask selection `row[mask]` on one time-slice. -/
def maskRow (m : List Bool) (row : List ℚ) : List ℚ :=
  ((row.zip m).filter (fun p => p.2)).map (fun p => p.1)

/-- The optional `tmp = tmp[:, mask]` step of `load_fmri_data`. -/
def applyMask : Option (List Bool) → List (List ℚ) → List (List ℚ)
  | none, a => a
  | some m, a => a.map (maskRow m)

/-- The per-file body of the `load_fmri_data` loop: load, optionally mask,
optionally z-score.  `loadFile` stands for `nibabel.load(f).get_data().T`
already cast to the requested dtype, and `zscoreFn` for
`scipy.stats.zscore(., axis=0)`; both are external collaborators. -/
def processFile (loadFile : List Char → List (List ℚ))
    (zscoreFn : List (List ℚ) → List (List ℚ)) (do_zscore : Bool)
    (m : Option (List Bool)) (f : List Char) : List (List ℚ) :=
  let tmp := applyMask m (loadFile f)
  if do_zscore then zscoreFn tmp else tmp

/-- `load_fmri_data` from src/neurods/io.py: process each file in input
order and `np.vstack` the results (concatenation along the time axis). -/
def load_fmri_data (loadFile : List Char → List (List ℚ))
    (zscoreFn : List (List ℚ) → List (List ℚ))
    (files : List (List Char)) (do_zscore : Bool)
    (m : Option (List Bool)) : List (List ℚ) :=
  (files.map (processFile loadFile zscoreFn do_zscore m)).flatten

/-! Concrete fixtures used by witnesses and counterexamples. -/

/-- A filesystem in which the base `~/data/` and `~/tmp/` folders exist. -/
def sampleFS : FS :=
  { home := "/home/user".data,
    dirs := ["/home/user".data, "/home/user/data".data, "/home/user/tmp".data],
    files := [] }

/-- `sampleFS` with one file already present at `~/data/x.txt`. -/
def sampleFS2 : FS :=
  { sampleFS with files := [("/home/user/data/x.txt".data, "hi".data)] }

/-- A code cell whose source contains the marker (first of two). -/
def cellMarkedA : Cell :=
  { cell_type := "code".data, source := "### STUDENT ANSWER\nfoo".data,
    outputs := [1], execution_count := some 1, prompt_number := none }

/-- A code cell whose source contains the marker (second of two). -/
def cellMarkedB : Cell :=
  { cell_type := "code".data, source := "### STUDENT ANSWER\nbar".data,
    outputs := [2], execution_count := some 2, prompt_number := none }

/-- A code cell without the marker, with nonempty outputs and a set
execution count. -/
def cellPlain : Cell :=
  { cell_type := "code".data, source := "print(1)".data,
    outputs := [5], execution_count := some 7, prompt_number := some 4 }

/-- A code cell with the marker mid-source, followed by answer text. -/
def cellTrunc : Cell :=
  { cell_type := "code".data, source := "x = 1 ### STUDENT ANSWER secret".data,
    outputs := [3], execution_count := some 2, prompt_number := some 1 }

/-! Helper lemmas about the string primitives. -/

theorem isPrefixList_append_self (a t : List Char) : isPrefixList a (a ++ t) = true := by
  induction a with
  | nil => simp [isPrefixList]
  | cons c a ih => simp [isPrefixList, ih]

theorem strFind_of_isPrefixList (sub s : List Char) (h : isPrefixList sub s = true) :
    strFind sub s = some 0 := by
  cases s with
  | nil => simp [strFind, h]
  | cons c rest => simp [strFind, h]

theorem strFind_cons_neg (sub : List Char) (c : Char) (rest : List Char)
    (h : isPrefixList sub (c :: rest) = false) :
    strFind sub (c :: rest) = (strFind sub rest).map (fun n => n + 1) := by
  simp [strFind, h]

theorem containsSub_of_append (pre sub post : List Char) :
    containsSub (pre ++ sub ++ post) sub = true := by
  induction pre with
  | nil =>
    simp only [List.nil_append]
    unfold containsSub
    rw [strFind_of_isPrefixList sub (sub ++ post) (isPrefixList_append_self sub post)]
    rfl
  | cons p pre ih =>
    unfold containsSub at ih ⊢
    by_cases hp : isPrefixList sub (p :: (pre ++ sub ++ post)) = true
    · rw [List.cons_append, List.cons_append, strFind_of_isPrefixList sub _ hp]
      rfl
    · rw [List.cons_append, List.cons_append,
        strFind_cons_neg sub p _ (by simpa using hp)]
      cases hr : strFind sub (pre ++ sub ++ post) with
      | none => rw [hr] at ih; simp at ih
      | some k => rfl

theorem pyReplace_of_find_none (old new : List Char) :
    ∀ s : List Char, strFind old s = none → pyReplace old new s = s := by
  intro s
  induction s with
  | nil => intro _; simp [pyReplace]
  | cons c rest ih =>
    intro h
    by_cases hp : isPrefixList old (c :: rest) = true
    · rw [strFind_of_isPrefixList old _ hp] at h
      exact absurd h (by simp)
    · have hrest : strFind old rest = none := by
        rw [strFind_cons_neg old c rest (by simpa using hp)] at h
        simpa using h
      rw [pyReplace, dif_neg (fun hand => hp hand.2), ih hrest]

theorem pyReplace_first (old new : List Char) (hold : old ≠ []) :
    ∀ pre post : List Char,
      strFind old (pre ++ old ++ post) = some pre.length →
      pyReplace old new (pre ++ old ++ post) = pre ++ new ++ pyReplace old new post := by
  intro pre
  induction pre with
  | nil =>
    intro post _
    simp only [List.nil_append]
    cases hO : old with
    | nil => exact absurd hO hold
    | cons o ot =>
      rw [← hO]
      have hcons : old ++ post = o :: (ot ++ post) := by rw [hO]; rfl
      rw [hcons, pyReplace,
        dif_pos ⟨hold, by rw [← hcons]; exact isPrefixList_append_self old post⟩]
      have hdrop : (o :: (ot ++ post)).drop old.length = post := by
        rw [← hcons]
        exact List.drop_left old post
      rw [hdrop]
  | cons p pre ih =>
    intro post hfind
    rw [List.cons_append, List.cons_append] at hfind ⊢
    by_cases hp : isPrefixList old (p :: (pre ++ old ++ post)) = true
    · rw [strFind_of_isPrefixList old _ hp] at hfind
      simp at hfind
    · rw [strFind_cons_neg old p _ (by simpa using hp)] at hfind
      have hrest : strFind old (pre ++ old ++ post) = some pre.length := by
        cases hr : strFind old (pre ++ old ++ post) with
        | none => rw [hr] at hfind; simp at hfind
        | some k =>
          rw [hr] at hfind
          have hk : k + 1 = pre.length + 1 := by simpa using hfind
          have hkp : k = pre.length := by omega
          rw [hkp]
      rw [pyReplace, dif_neg (fun hand => hp hand.2), ih post hrest]
      rfl

/-! Helper lemmas about `splitChar`. -/

theorem splitChar_sep (sep : Char) (t : List Char) :
    splitChar sep (sep :: t) = [] :: splitChar sep t := by
  simp [splitChar]

theorem splitChar_seg (sep : Char) (seg t : List Char) (hs : sep ∉ seg) :
    splitChar sep (seg ++ sep :: t) = seg :: splitChar sep t := by
  induction seg with
  | nil => simp [splitChar]
  | cons c seg ih =>
    have hc : ¬ c = sep := fun h => hs (by rw [h]; exact List.mem_cons_self _ _)
    have ih2 := ih (fun h => hs (List.mem_cons_of_mem _ h))
    rw [List.cons_append]
    simp only [splitChar]
    rw [if_neg hc, ih2]
    rfl

theorem splitChar_no_sep (sep : Char) (s : List Char) (hs : sep ∉ s) :
    splitChar sep s = [s] := by
  induction s with
  | nil => rfl
  | cons c s ih =>
    have hc : ¬ c = sep := fun h => hs (by rw [h]; exact List.mem_cons_self _ _)
    simp only [splitChar]
    rw [if_neg hc, ih (fun h => hs (List.mem_cons_of_mem _ h))]
    rfl

/-! Helper lemmas about list indexing at an append boundary. -/

theorem get_append_len {α : Type} (l : List α) (c : α) (r : List α)
    (h : l.length < (l ++ c :: r).length) :
    (l ++ c :: r).get ⟨l.length, h⟩ = c := by
  induction l with
  | nil => rfl
  | cons a l ih => exact ih (by simp)

theorem set_append_len {α : Type} (l : List α) (c x : α) (r : List α) :
    (l ++ c :: r).set l.length x = l ++ x :: r := by
  induction l with
  | nil => rfl
  | cons a l ih => simp [List.set, ih]

/-! Step lemmas for the `strip_answers` loop. -/

theorem stripLoop_stop (strip : List Char) (r c : Bool) (cells : List Cell) (ii : Nat)
    (h : ¬ ii < cells.length) :
    stripLoop strip r c cells ii = cells := by
  conv_lhs => unfold stripLoop
  rw [dif_neg h]

theorem stripLoop_noncode (strip : List Char) (r c : Bool) (cells : List Cell) (ii : Nat)
    (h : ii < cells.length) (htype : (cells.get ⟨ii, h⟩).cell_type ≠ "code".data) :
    stripLoop strip r c cells ii = stripLoop strip r c cells (ii + 1) := by
  conv_lhs => unfold stripLoop
  rw [dif_pos h]
  simp only [if_pos htype]

theorem stripLoop_remove (strip : List Char) (c : Bool) (cells : List Cell) (ii : Nat)
    (h : ii < cells.length) (htype : (cells.get ⟨ii, h⟩).cell_type = "code".data)
    (ix : Nat) (hfind : strFind strip (cells.get ⟨ii, h⟩).source = some ix) :
    stripLoop strip true c cells ii = stripLoop strip true c (cells.eraseIdx ii) (ii + 1) := by
  conv_lhs => unfold stripLoop
  rw [dif_pos h]
  simp only [htype, hfind]
  simp

theorem stripLoop_truncate (strip : List Char) (c : Bool) (cells : List Cell) (ii : Nat)
    (h : ii < cells.length) (htype : (cells.get ⟨ii, h⟩).cell_type = "code".data)
    (ix : Nat) (hfind : strFind strip (cells.get ⟨ii, h⟩).source = some ix) :
    stripLoop strip false c cells ii =
      stripLoop strip false c
        (cells.set ii (cleanCell c
          { cells.get ⟨ii, h⟩ with
              source := (cells.get ⟨ii, h⟩).source.take (ix + strip.length) ++ ['\n'] }))
        (ii + 1) := by
  conv_lhs => unfold stripLoop
  rw [dif_pos h]
  simp only [htype, hfind]
  simp

theorem stripLoop_nofind (strip : List Char) (r c : Bool) (cells : List Cell) (ii : Nat)
    (h : ii < cells.length) (htype : (cells.get ⟨ii, h⟩).cell_type = "code".data)
    (hfind : strFind strip (cells.get ⟨ii, h⟩).source = none) :
    stripLoop strip r c cells ii =
      stripLoop strip r c (cells.set ii (cleanCell c (cells.get ⟨ii, h⟩))) (ii + 1) := by
  conv_lhs => unfold stripLoop
  rw [dif_pos h]
  simp only [htype, hfind]
  simp

/-- With `remove_cell=False` the loop never pops, so it acts as a map of
`processCell` over the cells not yet visited. -/
theorem stripLoop_no_remove (strip : List Char) (c : Bool) :
    ∀ (rest done : List Cell),
      stripLoop strip false c (done ++ rest) done.length =
        done ++ rest.map (processCell strip c) := by
  intro rest
  induction rest with
  | nil =>
    intro done
    rw [stripLoop_stop strip false c (done ++ []) done.length (by simp)]
    simp
  | cons cell rest ih =>
    intro done
    have h : done.length < (done ++ cell :: rest).length := by simp
    have hget : (done ++ cell :: rest).get ⟨done.length, h⟩ = cell :=
      get_append_len done cell rest h
    by_cases htype : cell.cell_type = "code".data
    · cases hfind : strFind strip cell.source with
      | some ix =>
        rw [stripLoop_truncate strip c (done ++ cell :: rest) done.length h
          (by rw [hget]; exact htype) ix (by rw [hget]; exact hfind)]
        rw [hget, set_append_len]
        have hlen :
            done.length + 1 =
              (done ++ [cleanCell c
                { cell with source := cell.source.take (ix + strip.length) ++ ['\n'] }]).length := by
          simp
        rw [show (done ++
              cleanCell c
                { cell with source := cell.source.take (ix + strip.length) ++ ['\n'] } :: rest) =
            (done ++ [cleanCell c
              { cell with source := cell.source.take (ix + strip.length) ++ ['\n'] }]) ++ rest by
          simp]
        rw [hlen, ih]
        simp [processCell, htype, hfind]
      | none =>
        rw [stripLoop_nofind strip false c (done ++ cell :: rest) done.length h
          (by rw [hget]; exact htype) (by rw [hget]; exact hfind)]
        rw [hget, set_append_len]
        have hlen : done.length + 1 = (done ++ [cleanCell c cell]).length := by simp
        rw [show (done ++ cleanCell c cell :: rest) = (done ++ [cleanCell c cell]) ++ rest by simp]
        rw [hlen, ih]
        simp [processCell, htype, hfind]
    · rw [stripLoop_noncode strip false c (done ++ cell :: rest) done.length h
        (by rw [hget]; exact htype)]
      have hlen : done.length + 1 = (done ++ [cell]).length := by simp
      rw [show (done ++ cell :: rest) = (done ++ [cell]) ++ rest by simp]
      rw [hlen, ih]
      simp [processCell, htype]

/-! Helper lemmas for `download_file`. -/

theorem ensureDir_of_isdir (fs : FS) (p : List Char) (h : isdir fs p = true) :
    ensureDir fs p = ([], fs) := by
  simp [ensureDir, h]

theorem ensureDir_files (fs : FS) (p : List Char) : (ensureDir fs p).2.files = fs.files := by
  unfold ensureDir
  split <;> simp [addDir]

theorem ensureDir_home (fs : FS) (p : List Char) : (ensureDir fs p).2.home = fs.home := by
  unfold ensureDir
  split <;> simp [addDir]

theorem mem_ensureDir_trace (fs : FS) (p : List Char) (e : Effect)
    (h : e ∈ (ensureDir fs p).1) : e = Effect.mkdirs p := by
  unfold ensureDir at h
  split at h <;> simp at h
  exact h

theorem ensureBase_files (fs : FS) : (ensureBase fs).2.files = fs.files := by
  unfold ensureBase
  rw [ensureDir_files, ensureDir_files]

theorem mem_ensureBase_trace (fs : FS) (e : Effect) (h : e ∈ (ensureBase fs).1) :
    e = Effect.mkdirs (dropTrail fs.home ++ "/data/".data) ∨
    e = Effect.mkdirs (dropTrail fs.home ++ "/tmp/".data) := by
  unfold ensureBase at h
  simp only [List.mem_append] at h
  cases h with
  | inl h => exact Or.inl (mem_ensureDir_trace _ _ _ h)
  | inr h => exact Or.inr (mem_ensureDir_trace _ _ _ h)

theorem pexists_addDir (fs : FS) (q p : List Char) (h : pexists fs p = true) :
    pexists (addDir fs q) p = true := by
  unfold pexists isdir isfile at h ⊢
  unfold addDir
  by_cases hp : p.getLast? = some '/'
  · rw [if_pos hp] at h ⊢
    simp at h ⊢
    exact Or.inr h
  · rw [if_neg hp] at h ⊢
    simp at h ⊢
    rcases h with h | h
    · exact Or.inl (Or.inr h)
    · exact Or.inr h

theorem pexists_ensureDir (fs : FS) (q p : List Char) (h : pexists fs p = true) :
    pexists (ensureDir fs q).2 p = true := by
  unfold ensureDir
  split
  · exact h
  · exact pexists_addDir fs q p h

theorem pexists_ensureBase (fs : FS) (p : List Char) (h : pexists fs p = true) :
    pexists (ensureBase fs).2 p = true := by
  unfold ensureBase
  exact pexists_ensureDir _ _ _ (pexists_ensureDir _ _ _ h)

theorem applyMask_length (m : Option (List Bool)) (a : List (List ℚ)) :
    (applyMask m a).length = a.length := by
  cases m <;> simp [applyMask]

/-! Claim theorems. -/

/-- C1: the claim says `strip_answers` with `remove_cell=True` removes every
marker-bearing code cell, even adjacent ones.  The code pops during indexed
forward iteration, so of two adjacent matching code cells only the first is
removed: the second (still marker-bearing, as the second conjunct records)
survives unchanged, and the cell count drops by one, not two. -/
theorem strip_answers_remove_adjacent_eval :
    strip_answers [cellMarkedA, cellMarkedB] "### STUDENT ANSWER".data true true true =
        [cellMarkedB] ∧
    (strFind "### STUDENT ANSWER".data cellMarkedB.source).isSome = true ∧
    cellMarkedB.cell_type = "code".data := by
  refine ⟨?_, by decide, by decide⟩
  unfold strip_answers
  rw [stripLoop_remove "### STUDENT ANSWER".data true [cellMarkedA, cellMarkedB] 0
    (by decide) (by decide) 0 (by decide)]
  rw [show ([cellMarkedA, cellMarkedB].eraseIdx 0) = [cellMarkedB] from rfl]
  exact stripLoop_stop _ _ _ _ 1 (by decide)

/-- C2: the claim says `clean_outputs=True` leaves every surviving code cell
with empty outputs and a cleared execution count, under any flag combination
including `remove_cell=True`.  Popping a matching cell makes the iterator
skip the next cell entirely, so here the surviving code cell `cellPlain`
keeps its nonempty outputs and its execution count. -/
theorem strip_answers_remove_skips_cleaning_eval :
    strip_answers [cellMarkedA, cellPlain] "### STUDENT ANSWER".data true true true =
        [cellPlain] ∧
    cellPlain.cell_type = "code".data ∧
    cellPlain.outputs ≠ [] ∧
    cellPlain.execution_count ≠ none := by
  refine ⟨?_, by decide, by decide, by decide⟩
  unfold strip_answers
  rw [stripLoop_remove "### STUDENT ANSWER".data true [cellMarkedA, cellPlain] 0
    (by decide) (by decide) 0 (by decide)]
  rw [show ([cellMarkedA, cellPlain].eraseIdx 0) = [cellPlain] from rfl]
  exact stripLoop_stop _ _ _ _ 1 (by decide)

/-- C7: with `remove_cell=False`, a code cell whose source contains the
marker at index `ix` is rewritten to the source prefix through the end of
the marker plus a single newline; nothing after the marker survives. -/
theorem strip_answers_truncates_at_marker (strip : List Char) ( keep clean : Bool)
    (cells : List Cell) (i : Nat) (c : Cell) (ix : Nat)
    (hc : cells.get? i = some c) (htype : c.cell_type = "code".data)
    (hfind : strFind strip c.source = some ix) :
    (strip_answers cells strip keep false clean).get? i =
        some (processCell strip clean c) ∧
    (processCell strip clean c).source = c.source.take (ix + strip.length) ++ ['\n'] := by
  constructor
  · have hmap : strip_answers cells strip keep false clean =
        cells.map (processCell strip clean) := by
      unfold strip_answers
      have h := stripLoop_no_remove strip clean cells []
      simpa using h
    rw [hmap, List.get?_map, hc]
    rfl
  · simp [processCell, htype, hfind, cleanCell]

/-- C7 witness: a concrete cell with text after the marker is truncated to
the marker plus a newline. -/
theorem strip_answers_truncates_at_marker_witness :
    (strip_answers [cellTrunc] "### STUDENT ANSWER".data true false true).get? 0 =
        some (processCell "### STUDENT ANSWER".data true cellTrunc) ∧
    (processCell "### STUDENT ANSWER".data true cellTrunc).source =
      "x = 1 ### STUDENT ANSWER\n".data := by
  have h := strip_answers_truncates_at_marker "### STUDENT ANSWER".data true true
    [cellTrunc] 0 cellTrunc 6 (by decide) (by decide) (by decide)
  exact ⟨h.1, by rw [h.2]; decide⟩

/-- C10: the `keep_strip_string` flag is accepted but never read, so the
returned document is identical for both settings (and the save path writes
this same returned value). -/
theorem keep_strip_string_no_effect (cells : List Cell) (strip : List Char)
    (remove clean : Bool) :
    strip_answers cells strip true remove clean =
      strip_answers cells strip false remove clean := rfl

/-- C5 counterexample: the dropbox rewrite is a global `str.replace`, so a
URL whose path also contains the host marker has the path occurrence
rewritten as well — the path is not preserved verbatim. -/
theorem convert_dropbox_replaces_path_cex :
    convert_url_to_downloadable "https://www.dropbox.com/s/www.dropbox.com/f".data =
        .ok "https://dl.dropboxusercontent.com/s/dl.dropboxusercontent.com/f".data ∧
    ("https://dl.dropboxusercontent.com/s/dl.dropboxusercontent.com/f".data : List Char) ≠
      "https://dl.dropboxusercontent.com/s/www.dropbox.com/f".data := by
  constructor
  · unfold convert_url_to_downloadable
    rw [show containsSub "https://www.dropbox.com/s/www.dropbox.com/f".data
        "drive.google.com".data = false from by decide]
    rw [if_neg (show ¬ (false = true) from by decide)]
    rw [show containsSub "https://www.dropbox.com/s/www.dropbox.com/f".data
        "www.dropbox.com".data = true from by decide]
    rw [if_pos (show (true : Bool) = true from rfl)]
    rw [show ("https://www.dropbox.com/s/www.dropbox.com/f".data : List Char) =
        "https://".data ++ "www.dropbox.com".data ++
          ("/s/".data ++ "www.dropbox.com".data ++ "/f".data) from by decide]
    rw [pyReplace_first "www.dropbox.com".data "dl.dropboxusercontent.com".data
      (by decide) "https://".data _ (by decide)]
    rw [pyReplace_first "www.dropbox.com".data "dl.dropboxusercontent.com".data
      (by decide) "/s/".data "/f".data (by decide)]
    rw [pyReplace_of_find_none "www.dropbox.com".data "dl.dropboxusercontent.com".data
      "/f".data (by decide)]
    decide
  · decide

/-- C5 (amended): `str.replace` rewrites every occurrence of the host
marker; when the marker occurs exactly once (its first occurrence, with no
further occurrence after it), only that host substring is replaced and the
rest of the URL is preserved verbatim. -/
theorem convert_dropbox_single_occurrence (pre post : List Char)
    (hfind : strFind "www.dropbox.com".data (pre ++ "www.dropbox.com".data ++ post) =
      some pre.length)
    (hpost : strFind "www.dropbox.com".data post = none)
    (hdrive : containsSub (pre ++ "www.dropbox.com".data ++ post)
      "drive.google.com".data = false) :
    convert_url_to_downloadable (pre ++ "www.dropbox.com".data ++ post) =
      .ok (pre ++ "dl.dropboxusercontent.com".data ++ post) := by
  have hdb : containsSub (pre ++ "www.dropbox.com".data ++ post)
      "www.dropbox.com".data = true := by
    unfold containsSub
    rw [hfind]
    rfl
  unfold convert_url_to_downloadable
  rw [hdrive]
  rw [if_neg (show ¬ (false = true) from by decide)]
  rw [hdb]
  rw [if_pos (show (true : Bool) = true from rfl)]
  rw [pyReplace_first "www.dropbox.com".data "dl.dropboxusercontent.com".data
    (by decide) pre post hfind]
  rw [pyReplace_of_find_none "www.dropbox.com".data "dl.dropboxusercontent.com".data
    post hpost]

/-- C5 witness: a URL with a single dropbox host marker. -/
theorem convert_dropbox_single_occurrence_witness :
    convert_url_to_downloadable
        ("https://".data ++ "www.dropbox.com".data ++ "/s/file.txt".data) =
      .ok ("https://".data ++ "dl.dropboxusercontent.com".data ++ "/s/file.txt".data) :=
  convert_dropbox_single_occurrence "https://".data "/s/file.txt".data
    (by decide) (by decide) (by decide)

/-- C6: for a google-drive share link of the standard shape, the normalizer
takes the path segment immediately after the literal `d` segment as the file
identifier and appends it to the fixed direct-download template. -/
theorem convert_drive_share_link (fid : List Char) (hf : '/' ∉ fid) :
    convert_url_to_downloadable
        ("https://drive.google.com/file/d/".data ++ fid ++ "/view?usp=sharing".data) =
      .ok ("https://drive.google.com/uc?export=download&id=".data ++ fid) := by
  have hurl : "https://drive.google.com/file/d/".data ++ fid ++ "/view?usp=sharing".data =
      "https:".data ++ '/' :: ('/' :: ("drive.google.com".data ++ '/' ::
        ("file".data ++ '/' :: ("d".data ++ '/' ::
          (fid ++ '/' :: "view?usp=sharing".data))))) := by
    rw [show ("https://drive.google.com/file/d/".data : List Char) =
        "https:".data ++ '/' :: ('/' :: ("drive.google.com".data ++ '/' ::
          ("file".data ++ '/' :: ("d".data ++ ['/'])))) from by decide]
    rw [show ("/view?usp=sharing".data : List Char) =
        '/' :: "view?usp=sharing".data from by decide]
    simp [List.append_assoc]
  rw [hurl]
  have hc : containsSub ("https:".data ++ '/' :: ('/' :: ("drive.google.com".data ++ '/' ::
      ("file".data ++ '/' :: ("d".data ++ '/' ::
        (fid ++ '/' :: "view?usp=sharing".data))))))
      "drive.google.com".data = true := rfl
  have hsplit : splitChar '/' ("https:".data ++ '/' :: ('/' :: ("drive.google.com".data ++
      '/' :: ("file".data ++ '/' :: ("d".data ++ '/' ::
        (fid ++ '/' :: "view?usp=sharing".data)))))) =
      ["https:".data, [], "drive.google.com".data, "file".data, "d".data, fid,
        "view?usp=sharing".data] := by
    rw [splitChar_seg '/' "https:".data _ (by decide)]
    rw [splitChar_sep]
    rw [splitChar_seg '/' "drive.google.com".data _ (by decide)]
    rw [splitChar_seg '/' "file".data _ (by decide)]
    rw [splitChar_seg '/' "d".data _ (by decide)]
    rw [splitChar_seg '/' fid _ hf]
    rw [splitChar_no_sep '/' "view?usp=sharing".data (by decide)]
  unfold convert_url_to_downloadable
  rw [hc]
  rw [if_pos rfl]
  rw [hsplit]
  rfl

/-- C6 witness: a concrete share link. -/
theorem convert_drive_share_link_witness :
    convert_url_to_downloadable
        ("https://drive.google.com/file/d/".data ++ "FILE123".data ++
          "/view?usp=sharing".data) =
      .ok ("https://drive.google.com/uc?export=download&id=".data ++ "FILE123".data) :=
  convert_drive_share_link "FILE123".data (by decide)

/-- C9: `url_to_interact` raises `ValueError` for any URL without a
course-site marker, and for any URL with such a marker whose host is neither
the github host nor the course-site host. -/
theorem url_to_interact_invalid_inputs (url url_type : List Char) :
    (containsSub url "data-8".data = false ∧ containsSub url "data8.org".data = false →
      url_to_interact url url_type = .error UErr.notData8) ∧
    ((containsSub url "data-8".data = true ∨ containsSub url "data8.org".data = true) →
      containsSub url "github.com".data = false →
      containsSub url "data8.org".data = false →
      url_to_interact url url_type = .error UErr.badHost) := by
  constructor
  · intro h
    simp [url_to_interact, h.1, h.2]
  · intro h1 h2 h3
    have hd8 : containsSub url "data-8".data = true := by
      rcases h1 with h1 | h1
      · exact h1
      · rw [h1] at h3
        simp at h3
    simp [url_to_interact, hd8, h2, h3]

/-- C9 witness: a URL with no course-site marker, and a course-site URL on
an unrecognized host. -/
theorem url_to_interact_invalid_inputs_witness :
    url_to_interact "http://example.com/x".data "data8".data = .error UErr.notData8 ∧
    url_to_interact "http://data-8.example.com/x".data "data8".data = .error UErr.badHost :=
  ⟨(url_to_interact_invalid_inputs "http://example.com/x".data "data8".data).1
      ⟨by decide, by decide⟩,
    (url_to_interact_invalid_inputs "http://data-8.example.com/x".data "data8".data).2
      (Or.inl (by decide)) (by decide) (by decide)⟩

/-- C8: `load_fmri_data` concatenates the per-file arrays in input order
(total time-points `T1 + T2`), and with `do_zscore=True` the z-score
collaborator is applied to each file's (already masked) array independently
before concatenation, so its statistics never span files. -/
theorem load_fmri_concat_per_file (loadFile : List Char → List (List ℚ))
    (zscoreFn : List (List ℚ) → List (List ℚ)) (f1 f2 : List Char)
    (m : Option (List Bool)) (hz : ∀ a, (zscoreFn a).length = a.length) :
    load_fmri_data loadFile zscoreFn [f1, f2] true m =
        zscoreFn (applyMask m (loadFile f1)) ++ zscoreFn (applyMask m (loadFile f2)) ∧
    (load_fmri_data loadFile zscoreFn [f1, f2] true m).length =
        (loadFile f1).length + (loadFile f2).length ∧
    load_fmri_data loadFile zscoreFn [f1, f2] false m =
        applyMask m (loadFile f1) ++ applyMask m (loadFile f2) ∧
    (load_fmri_data loadFile zscoreFn [f1, f2] false m).length =
        (loadFile f1).length + (loadFile f2).length := by
  refine ⟨?_, ?_, ?_, ?_⟩
  · simp [load_fmri_data, processFile]
  · simp [load_fmri_data, processFile, hz, applyMask_length]
  · simp [load_fmri_data, processFile]
  · simp [load_fmri_data, processFile, applyMask_length]

/-- C8 witness: two concrete one-voxel files under the identity z-score. -/
theorem load_fmri_concat_per_file_witness :
    load_fmri_data (fun _ => [[(1 : ℚ)], [2]]) (fun a => a)
        ["a".data, "b".data] true none = [[(1 : ℚ)], [2], [1], [2]] ∧
    (load_fmri_data (fun _ => [[(1 : ℚ)], [2]]) (fun a => a)
        ["a".data, "b".data] true none).length = 2 + 2 := by
  have h := load_fmri_concat_per_file (fun _ => [[(1 : ℚ)], [2]]) (fun a => a)
    "a".data "b".data none (fun a => rfl)
  exact ⟨h.1, h.2.1⟩

/-- C3 counterexample: with an empty name, `zipfile=False`, and a root
destination whose directory does not yet exist, `download_file` creates
that directory (a non-base directory) before raising the empty-name
`ValueError`. -/
theorem download_file_empty_name_creates_dir_cex :
    (download_file (fun _ => []) (fun fs _ _ => fs) "http://example.com/f.txt".data []
        "~/stuff/".data false false sampleFS).1 =
      [Effect.mkdirs "/home/user/stuff".data] ∧
    (download_file (fun _ => []) (fun fs _ _ => fs) "http://example.com/f.txt".data []
        "~/stuff/".data false false sampleFS).2.2 = .error PyErr.emptyName ∧
    "/home/user/stuff".data ≠ dropTrail sampleFS.home ++ "/data/".data ∧
    "/home/user/stuff".data ≠ dropTrail sampleFS.home ++ "/tmp/".data := by
  refine ⟨by decide, by decide, by decide, by decide⟩

/-- C3 (amended): with an empty name and `zipfile=False`, when URL
normalization succeeds and the parent directory of the computed destination
already exists at check time (as with the default root once the base
folders exist), the call raises the empty-name `ValueError`, performs no
effect beyond (at most) creating the base data and tmp folders — in
particular no fetch — and leaves the stored files unchanged. -/
theorem download_file_empty_name_amended (net : List Char → List Char)
    (extractTo : FS → List Char → List Char → FS) (url root : List Char)
    (replace : Bool) (fs : FS) (d : List Char)
    (hconv : convert_url_to_downloadable url = .ok d)
    (hdir : isdir (ensureBase fs).2
      (pyDirname (pyExpanduser fs.home (pyJoin root []))) = true) :
    (download_file net extractTo url [] root false replace fs).2.2 =
        .error PyErr.emptyName ∧
    (∀ e ∈ (download_file net extractTo url [] root false replace fs).1,
        e = Effect.mkdirs (dropTrail fs.home ++ "/data/".data) ∨
        e = Effect.mkdirs (dropTrail fs.home ++ "/tmp/".data)) ∧
    (download_file net extractTo url [] root false replace fs).2.1.files = fs.files := by
  simp only [download_file, hconv]
  rw [ensureDir_of_isdir _ _ hdir]
  simp only [List.length_nil, Bool.false_eq_true, if_false, if_true, List.append_nil]
  refine ⟨by trivial, ?_, ?_⟩
  · intro e he
    exact mem_ensureBase_trace fs e he
  · exact ensureBase_files fs

/-- C3 witness: default root with base folders already present. -/
theorem download_file_empty_name_amended_witness :
    (download_file (fun _ => []) (fun fs _ _ => fs) "http://example.com/f.txt".data []
        "~/data/".data false false sampleFS).2.2 = .error PyErr.emptyName ∧
    (download_file (fun _ => []) (fun fs _ _ => fs) "http://example.com/f.txt".data []
        "~/data/".data false false sampleFS).2.1.files = sampleFS.files := by
  have h := download_file_empty_name_amended (fun _ => []) (fun fs _ _ => fs)
    "http://example.com/f.txt".data "~/data/".data false sampleFS
    "http://example.com/f.txt".data (by decide) (by decide)
  exact ⟨h.1, h.2.2⟩

/-- C4 counterexample: with an empty name the computed destination (the data
root, which exists) triggers the empty-name `ValueError`, not the conflict
error naming the existing path, so the claim's universal statement fails. -/
theorem download_file_existing_dest_empty_name_cex :
    pexists sampleFS (pyExpanduser sampleFS.home (pyJoin "~/data/".data [])) = true ∧
    (download_file (fun _ => []) (fun fs _ _ => fs) "http://example.com/f.txt".data []
        "~/data/".data false false sampleFS).2.2 = .error PyErr.emptyName ∧
    (download_file (fun _ => []) (fun fs _ _ => fs) "http://example.com/f.txt".data []
        "~/data/".data false false sampleFS).2.2 ≠
      .error (PyErr.pathExists (pyExpanduser sampleFS.home (pyJoin "~/data/".data []))) := by
  refine ⟨by decide, by decide, by decide⟩

/-- C4 (amended): with `zipfile=False`, `replace=False`, a nonempty name,
and a URL the normalizer accepts, if the computed destination path already
exists then the call fails with the conflict error naming that path, no
fetch effect occurs, and the stored files are unchanged. -/
theorem download_file_conflict_amended (net : List Char → List Char)
    (extractTo : FS → List Char → List Char → FS) (url name root : List Char)
    (fs : FS) (d : List Char)
    (hname : name ≠ [])
    (hconv : convert_url_to_downloadable url = .ok d)
    (hex : pexists fs (pyExpanduser fs.home (pyJoin root name)) = true) :
    (download_file net extractTo url name root false false fs).2.2 =
        .error (PyErr.pathExists (pyExpanduser fs.home (pyJoin root name))) ∧
    (∀ u p, Effect.fetchUrl u p ∉
        (download_file net extractTo url name root false false fs).1) ∧
    (download_file net extractTo url name root false false fs).2.1.files = fs.files := by
  have hpex : pexists (ensureDir (ensureBase fs).2
      (pyDirname (pyExpanduser fs.home (pyJoin root name)))).2
      (pyExpanduser fs.home (pyJoin root name)) = true :=
    pexists_ensureDir _ _ _ (pexists_ensureBase _ _ hex)
  have hlen : ¬ name.length = 0 := by
    simpa [List.length_eq_zero] using hname
  have hcond : True ∧ pexists (ensureDir (ensureBase fs).2
      (pyDirname (pyExpanduser fs.home (pyJoin root name)))).2
      (pyExpanduser fs.home (pyJoin root name)) = true := ⟨trivial, hpex⟩
  simp only [download_file, hconv, Bool.false_eq_true, if_false]
  rw [if_neg hlen, if_pos hcond]
  refine ⟨rfl, ?_, ?_⟩
  · intro u p hmem
    rcases List.mem_append.mp hmem with hm | hm
    · rcases mem_ensureBase_trace fs _ hm with h1 | h1 <;> simp at h1
    · have h1 := mem_ensureDir_trace _ _ _ hm
      simp at h1
  · rw [ensureDir_files, ensureBase_files]

/-- C4 witness: destination `~/data/x.txt` already holds a file. -/
theorem download_file_conflict_amended_witness :
    (download_file (fun _ => []) (fun fs _ _ => fs) "http://example.com/f.txt".data
        "x.txt".data "~/data/".data false false sampleFS2).2.2 =
      .error (PyErr.pathExists "/home/user/data/x.txt".data) := by
  have h := download_file_conflict_amended (fun _ => []) (fun fs _ _ => fs)
    "http://example.com/f.txt".data "x.txt".data "~/data/".data sampleFS2
    "http://example.com/f.txt".data (by decide) (by decide) (by decide)
  exact h.1

end Neurods
